import Mathlib

/-!
Verification of the local-repository core of the Oxen version-control system
(add pipeline, staged DB, merge-conflict records, and the two stash engines),
shallowly embedded from the Rust sources:

* `src/lib/src/core/v_latest/add.rs`  — the add pipeline,
* `src/lib/src/command/stash.rs`      — the ref-backed stash engine,
* `src/cli/src/cmd/stash.rs`          — the copytree stash engine,
* `src/lib/src/core/merge/entry_merge_conflict_reader.rs` — conflict reader.

Machine integers of the source that never overflow in the modelled
operations (sizes, counters, timestamps) are embedded as `Nat`/`Int`.
File contents are `List Nat` (byte sequences); the 128-bit content hash is
an abstract function of the bytes, supplied as an environment parameter
(modelled from the spec: §4.A Content Hasher lives in `util::hasher`,
outside the surfaced sources).  Relative paths are lists of components,
so that `parent` is `dropLast` and the repository root is `[]`.
-/

namespace Oxen

/-- Relative path inside the repository, as its list of components.
`Path::parent` is `dropLast`; the root path `""` is `[]`. -/
abbrev RelPath := List String

/-- `StagedEntryStatus` from `model::StagedEntryStatus`. -/
inductive StagedEntryStatus where
  | Added
  | Modified
  | Unmodified
  | Removed
deriving DecidableEq, Repr

/-- `filetime::FileTime`: a modification time as seconds plus nanoseconds. -/
structure FileTime where
  seconds : Int
  nanoseconds : Nat
deriving DecidableEq, Repr

/-- The filesystem metadata the add pipeline consumes: `metadata.len()`
and the last-modification time. -/
structure FsMetadata where
  len : Nat
  mtime : FileTime
deriving DecidableEq, Repr

/-- A working-tree file: its bytes plus its filesystem metadata. -/
structure FsFile where
  bytes : List Nat
  metadata : FsMetadata
deriving DecidableEq, Repr

/-- `EntryDataType` (only the variants the modelled control flow inspects;
the remaining variants behave like `Binary` here). -/
inductive EntryDataType where
  | Binary
  | Tabular
  | Text
  | Image
deriving DecidableEq, Repr

/-- One field of a tabular schema: its name and its (optional) user
annotation, `field.metadata` in the source. -/
structure TabField where
  name : String
  fmeta : Option String
deriving DecidableEq, Repr

/-- A tabular schema: `metadata.tabular.schema.fields`. -/
structure TabularSchema where
  fields : List TabField
deriving DecidableEq, Repr

/-- `GenericMetadata`: tabular metadata carries a schema; every other
data-type-specific payload is opaque here. -/
inductive GenericMetadata where
  | tabular (schema : TabularSchema)
  | other (tag : Nat)
deriving DecidableEq, Repr

/-- `FileNode`, the Merkle-tree leaf for a file (the fields the add
pipeline reads and writes). -/
structure FileNode where
  name : String
  hash : Nat
  combined_hash : Nat
  metadata_hash : Option Nat
  num_bytes : Nat
  last_modified_seconds : Int
  last_modified_nanoseconds : Nat
  data_type : EntryDataType
  metadata : Option GenericMetadata
  mime_type : String
  extension : String
deriving DecidableEq, Repr

/-- A child of a loaded directory node: either a file leaf or a
subdirectory (whose payload the add pipeline never reads). -/
inductive MerkleChildKind where
  | file (fn : FileNode)
  | dir
deriving DecidableEq, Repr

/-- A directory node with one level of children loaded
(`CommitMerkleTree::dir_with_children`). -/
structure DirNode where
  children : List (String × MerkleChildKind)
deriving DecidableEq, Repr

/-- `MerkleTreeNode::get_by_path` for the single-component lookups the add
pipeline performs: find the child with the given name. -/
def get_by_path (node : DirNode) (name : String) : Option MerkleChildKind :=
  (node.children.find? (fun c => c.1 == name)).map (·.2)

/-- `get_file_node` from `add.rs`: look a path up in the (optional)
directory node and keep it only when it is a file node. -/
def get_file_node (dir_node : Option DirNode) (name : String) : Option FileNode :=
  match dir_node with
  | some node =>
    match get_by_path node name with
    | some (.file file_node) => some file_node
    | some .dir => none
    | none => none
  | none => none

/-- `has_different_modification_time` from `add.rs`. -/
def has_different_modification_time (node : FileNode) (time : FileTime) : Bool :=
  node.last_modified_nanoseconds != time.nanoseconds
    || node.last_modified_seconds != time.seconds

/-- `FileStatus` from `add.rs`. -/
structure FileStatus where
  data_path : RelPath
  status : StagedEntryStatus
  hash : Nat
  num_bytes : Nat
  mtime : FileTime
  previous_metadata : Option GenericMetadata
  previous_file_node : Option FileNode
deriving Repr

/-- `determine_file_status` from `add.rs`.  `hasher` models
`util::hasher::get_hash_given_metadata` (a pure function of the file's
bytes; modelled from the spec §4.A, the hasher is outside the surfaced
sources).  Note that both the mtime-equal and the mtime-different branch
rehash the file; they differ only in which `num_bytes` they report for a
modified file. -/
def determine_file_status (hasher : List Nat → Nat) (maybe_dir_node : Option DirNode)
    (file_name : String) (data_path : RelPath) (file : FsFile) : FileStatus :=
  let maybe_file_node := get_file_node maybe_dir_node file_name
  match maybe_file_node with
  | some file_node =>
    let metadata := file.metadata
    let mtime := metadata.mtime
    let previous_oxen_metadata := file_node.metadata
    if has_different_modification_time file_node mtime then
      let hash := hasher file.bytes
      if file_node.hash ≠ hash then
        ⟨data_path, .Modified, hash, metadata.len, mtime,
          previous_oxen_metadata, some file_node⟩
      else
        ⟨data_path, .Unmodified, hash, file_node.num_bytes, mtime,
          previous_oxen_metadata, some file_node⟩
    else
      let hash := hasher file.bytes
      if file_node.hash ≠ hash then
        ⟨data_path, .Modified, hash, file_node.num_bytes, mtime,
          previous_oxen_metadata, some file_node⟩
      else
        ⟨data_path, .Unmodified, hash, file_node.num_bytes, mtime,
          previous_oxen_metadata, some file_node⟩
  | none =>
    let metadata := file.metadata
    let mtime := metadata.mtime
    let hash := hasher file.bytes
    ⟨data_path, .Added, hash, metadata.len, mtime, none, none⟩

/-- Claim C1: `determine_file_status` classifies a file with no head
`FileNode` as `Added`, with the hash computed from the file's bytes and
`num_bytes` equal to the filesystem metadata length; when a head
`FileNode` exists the file is rehashed and the status is `Unmodified`
exactly when the fresh hash equals the stored hash and `Modified`
otherwise — in both the mtime-equal and the mtime-different branch. -/
theorem claim1_determine_file_status_classification
    (hasher : List Nat → Nat) (dn : Option DirNode) (name : String)
    (dp : RelPath) (file : FsFile) :
    match get_file_node dn name with
    | none =>
      (determine_file_status hasher dn name dp file).status = .Added ∧
      (determine_file_status hasher dn name dp file).hash = hasher file.bytes ∧
      (determine_file_status hasher dn name dp file).num_bytes = file.metadata.len
    | some fn =>
      (determine_file_status hasher dn name dp file).hash = hasher file.bytes ∧
      (determine_file_status hasher dn name dp file).status =
        (if fn.hash = hasher file.bytes then .Unmodified else .Modified) := by
  unfold determine_file_status
  cases h : get_file_node dn name with
  | none => simp [h]
  | some fn =>
    simp only [h]
    by_cases heq : fn.hash = hasher file.bytes <;>
      cases hm : has_different_modification_time fn file.metadata.mtime <;>
        simp [heq, hm]

/-- Claim C10: when the head `FileNode`'s recorded mtime equals the file's
current mtime but the rehashed content differs (status `Modified`), the
returned `num_bytes` is copied from the previous `FileNode`, not read from
the current filesystem metadata. -/
theorem claim10_modified_same_mtime_keeps_old_num_bytes
    (hasher : List Nat → Nat) (dn : Option DirNode) (name : String)
    (dp : RelPath) (file : FsFile) (fn : FileNode)
    (hfn : get_file_node dn name = some fn)
    (hmt : has_different_modification_time fn file.metadata.mtime = false)
    (hh : fn.hash ≠ hasher file.bytes) :
    (determine_file_status hasher dn name dp file).num_bytes = fn.num_bytes ∧
    (determine_file_status hasher dn name dp file).status = .Modified := by
  unfold determine_file_status
  simp [hfn, hmt, hh]

/-! ## The staged database and the write path of `add` -/

/-- The node stored inside a staged entry: a file node, or the default
directory node for a path (`MerkleTreeNode::default_dir_from_path`;
`default_dir()` is `dir []`). -/
inductive StagedNodeData where
  | file (fn : FileNode)
  | dir (path : RelPath)
deriving DecidableEq, Repr

/-- `StagedMerkleTreeNode`: a status together with the node, the value
serialized into the staged DB. -/
structure StagedMerkleTreeNode where
  status : StagedEntryStatus
  node : StagedNodeData
deriving DecidableEq, Repr

/-- The staged RocksDB, keyed by relative path.  `put` prepends, so the
first hit of a lookup is the most recent write; `writes` counts the `put`
calls issued through this handle. -/
structure StagedDB where
  entries : List (RelPath × StagedMerkleTreeNode)
  writes : Nat
deriving Repr

/-- Lookup of the most recent value written for a key. -/
def lookupEntries : List (RelPath × StagedMerkleTreeNode) → RelPath →
    Option StagedMerkleTreeNode
  | [], _ => none
  | e :: rest, k => if e.1 = k then some e.2 else lookupEntries rest k

/-- `staged_db.get(key)`. -/
def dbGet (db : StagedDB) (k : RelPath) : Option StagedMerkleTreeNode :=
  lookupEntries db.entries k

/-- `staged_db.put(key, value)`. -/
def dbPut (db : StagedDB) (k : RelPath) (v : StagedMerkleTreeNode) : StagedDB :=
  ⟨(k, v) :: db.entries, db.writes + 1⟩

/-- The per-operation "seen dirs" set shared by the add workers. -/
abbrev Seen := List RelPath

/-- `add_dir_to_staged_db` from `add.rs`: skip if the directory was
already seen in this operation, otherwise write a default dir entry with
status `Added` and remember it. -/
def add_dir_to_staged_db (db : StagedDB) (seen : Seen) (relative_path : RelPath) :
    StagedDB × Seen :=
  if relative_path ∈ seen then (db, seen)
  else (dbPut db relative_path ⟨.Added, .dir relative_path⟩, relative_path :: seen)

/-- The parent-directory loop of `p_add_file_node_to_staged_db`
(`while let Some(parent) = parent_path.parent()`), driven over the
reversed component list so that each step peels the last component:
for `a/b/c` it stages `a/b`, then `a`, then `""`. -/
def add_parent_dirs_rev (db : StagedDB) (seen : Seen) : List String → StagedDB × Seen
  | [] => (db, seen)
  | _ :: rest =>
    let parent := rest.reverse
    let r := add_dir_to_staged_db db seen parent
    add_parent_dirs_rev r.1 r.2 rest

/-- `p_add_file_node_to_staged_db` from `add.rs`: write the staged file
entry at its relative path, then write all ancestor directory entries. -/
def p_add_file_node_to_staged_db (db : StagedDB) (relative_path : RelPath)
    (status : StagedEntryStatus) (file_node : FileNode) (seen : Seen) :
    (StagedDB × Seen) × Option StagedMerkleTreeNode :=
  let staged_file_node : StagedMerkleTreeNode := ⟨status, .file file_node⟩
  let db := dbPut db relative_path staged_file_node
  let r := add_parent_dirs_rev db seen relative_path.reverse
  (r, some staged_file_node)

/-- The proper ancestors of a path, innermost first: for `a/b/c` the list
`[a/b, a, ""]` (driven over the reversed component list). -/
def ancestorsRev : List String → List RelPath
  | [] => []
  | _ :: rest => rest.reverse :: ancestorsRev rest

/-- The proper ancestors of a relative path, innermost first. -/
def ancestors (p : RelPath) : List RelPath := ancestorsRev p.reverse

/-! ### The conflict store and `process_add_file` -/

/-- Modelled from the spec: the conflict KV store of §4.F holds one
record per conflicted path; `repositories::merge` itself is not among the
surfaced sources.  `list_conflicts` returns every record. -/
def list_conflicts (conflict_db : List RelPath) : List RelPath := conflict_db

/-- Modelled from the spec: §4.F `mark_resolved(path)` deletes the
conflict record for `path`. -/
def mark_conflict_as_resolved (conflict_db : List RelPath) (path : RelPath) :
    List RelPath :=
  conflict_db.filter (fun p => p != path)

/-- The conflict loop of `process_add_file`: iterate over the snapshot of
`list_conflicts`; every conflict whose path matches the file upgrades the
status to `Modified` and is marked resolved in the store. -/
def conflict_upgrade_loop (conflict_db : List RelPath) (snapshot : List RelPath)
    (relative_path : RelPath) (status : StagedEntryStatus) :
    StagedEntryStatus × List RelPath :=
  match snapshot with
  | [] => (status, conflict_db)
  | conflict :: rest =>
    if conflict = relative_path then
      conflict_upgrade_loop (mark_conflict_as_resolved conflict_db conflict) rest
        relative_path .Modified
    else
      conflict_upgrade_loop conflict_db rest relative_path status

/-- The environment of pure helper functions `process_add_file` consumes.
Modelled from the spec: mime sniffing (`util::fs`), data-type derivation,
type-specific metadata extraction (`repositories::metadata`), the
metadata hash and the combined hash (`util::hasher`, spec §3 and §4.A)
live outside the surfaced sources; they are pure functions of the path
and content, fixed for one filesystem state. -/
structure Env where
  hasher : List Nat → Nat
  file_mime_type : RelPath → String
  datatype_from_mimetype : RelPath → String → EntryDataType
  get_file_metadata : RelPath → EntryDataType → Option GenericMetadata
  get_metadata_hash : GenericMetadata → Nat
  get_combined_hash : Nat → Nat → Nat
  extension_of : RelPath → String

/-- `maybe_construct_generic_metadata_for_tabular` from `add.rs`: merge
field-level schema annotations of the previous tabular metadata into the
freshly computed tabular metadata, by field name. -/
def maybe_construct_generic_metadata_for_tabular
    (df_metadata : Option GenericMetadata)
    (previous_oxen_metadata : GenericMetadata) : Option GenericMetadata :=
  match df_metadata, previous_oxen_metadata with
  | some (.tabular df), .tabular prev =>
    some (.tabular ⟨df.fields.map (fun field =>
      match prev.fields.find? (fun oxen_field => oxen_field.name == field.name) with
      | some oxen_field => { field with fmeta := oxen_field.fmeta }
      | none => field)⟩)
  | _, _ => df_metadata

/-- Rendering of a relative path back to the string stored in
`FileNode.name` (the root renders as `""`). -/
def renderPath (p : RelPath) : String := String.intercalate "/" p

/-- The `FileNode` constructed by `process_add_file` for a changed file:
mime type, data type, (merged) metadata, the tabular→binary downgrade
when metadata extraction failed, the metadata/combined hashes, and the
mtime and size carried over from the `FileStatus`. -/
def build_file_node (env : Env) (relative_path : RelPath) (file_status : FileStatus) :
    FileNode :=
  let mime_type := env.file_mime_type relative_path
  let data_type0 := env.datatype_from_mimetype relative_path mime_type
  let metadata :=
    match file_status.previous_metadata with
    | some previous_oxen_metadata =>
      maybe_construct_generic_metadata_for_tabular
        (env.get_file_metadata relative_path data_type0) previous_oxen_metadata
    | none => env.get_file_metadata relative_path data_type0
  let data_type :=
    if metadata.isNone ∧ data_type0 = .Tabular then .Binary else data_type0
  match metadata with
  | some m =>
    let metadata_hash := env.get_metadata_hash m
    { name := renderPath relative_path
      hash := file_status.hash
      combined_hash := env.get_combined_hash metadata_hash file_status.hash
      metadata_hash := some metadata_hash
      num_bytes := file_status.num_bytes
      last_modified_seconds := file_status.mtime.seconds
      last_modified_nanoseconds := file_status.mtime.nanoseconds
      data_type := data_type
      metadata := metadata
      mime_type := mime_type
      extension := env.extension_of relative_path }
  | none =>
    { name := renderPath relative_path
      hash := file_status.hash
      combined_hash := file_status.hash
      metadata_hash := none
      num_bytes := file_status.num_bytes
      last_modified_seconds := file_status.mtime.seconds
      last_modified_nanoseconds := file_status.mtime.nanoseconds
      data_type := data_type
      metadata := metadata
      mime_type := mime_type
      extension := env.extension_of relative_path }

/-- The outcome of `process_add_file`: the staged DB, the seen-dirs set,
the conflict store, and the returned staged node (`None` = unchanged). -/
structure AddFileResult where
  db : StagedDB
  seen : Seen
  conflicts : List RelPath
  result : Option StagedMerkleTreeNode
deriving Repr

/-- `process_add_file` from `add.rs`: a non-file gets a default dir
staged node without a write; a matching pending conflict upgrades the
status to `Modified` and is marked resolved; an `Unmodified` file is
skipped without a write; otherwise the `FileNode` is built and written
together with its ancestor directory entries. -/
def process_add_file (env : Env) (conflict_db : List RelPath) (db : StagedDB)
    (seen : Seen) (relative_path : RelPath) (is_file : Bool)
    (file_status : FileStatus) : AddFileResult :=
  if !is_file then
    ⟨db, seen, conflict_db, some ⟨.Added, .dir []⟩⟩
  else
    let sc :=
      match file_status.previous_file_node with
      | some _ =>
        conflict_upgrade_loop conflict_db (list_conflicts conflict_db)
          relative_path file_status.status
      | none => (file_status.status, conflict_db)
    let status := sc.1
    let conflict_db := sc.2
    if status = .Unmodified then
      ⟨db, seen, conflict_db, none⟩
    else
      let file_node := build_file_node env relative_path file_status
      let r := p_add_file_node_to_staged_db db relative_path status file_node seen
      ⟨r.1.1, r.1.2, conflict_db, r.2⟩

/-- The outcome of `add_file_inner`: staged DB, conflict store, the log
of `store_version_from_path` calls (the hashes stored), and the result. -/
structure AddFileInnerResult where
  db : StagedDB
  conflicts : List RelPath
  store_calls : List Nat
  result : Option StagedMerkleTreeNode
deriving Repr

/-- `add_file_inner` from `add.rs`: determine the status against the
parent directory node of the head commit, call
`version_store.store_version_from_path(hash, path)`, and then
`process_add_file` with a fresh seen-dirs set.  `store_calls` logs the
hashes passed to the version store. -/
def add_file_inner (env : Env) (head_parent_dir : Option DirNode)
    (conflict_db : List RelPath) (db : StagedDB) (store_calls : List Nat)
    (path : RelPath) (is_file : Bool) (file : FsFile) : AddFileInnerResult :=
  let file_name := (path.getLast?).getD ""
  let file_status := determine_file_status env.hasher head_parent_dir file_name path file
  let store_calls := store_calls ++ [file_status.hash]
  let seen : Seen := []
  let r := process_add_file env conflict_db db seen path is_file file_status
  ⟨r.db, r.conflicts, store_calls, r.result⟩

/-! ### Frame lemmas for the staged-DB write path -/

/-- The entry `add_dir_to_staged_db` writes (empty when already seen). -/
def add_dir_writes (seen : Seen) (p : RelPath) : List (RelPath × StagedMerkleTreeNode) :=
  if p ∈ seen then [] else [(p, ⟨.Added, .dir p⟩)]

/-- The seen set after `add_dir_to_staged_db`. -/
def add_dir_seen (seen : Seen) (p : RelPath) : Seen :=
  if p ∈ seen then seen else p :: seen

theorem add_dir_entries (db : StagedDB) (seen : Seen) (p : RelPath) :
    (add_dir_to_staged_db db seen p).1.entries = add_dir_writes seen p ++ db.entries := by
  unfold add_dir_to_staged_db add_dir_writes
  split <;> simp [dbPut]

theorem add_dir_seen_eq (db : StagedDB) (seen : Seen) (p : RelPath) :
    (add_dir_to_staged_db db seen p).2 = add_dir_seen seen p := by
  unfold add_dir_to_staged_db add_dir_seen
  split <;> rfl

/-- The entries the parent-directory loop writes, most recent first. -/
def apd_writes (seen : Seen) : List String → List (RelPath × StagedMerkleTreeNode)
  | [] => []
  | _ :: rest =>
    apd_writes (add_dir_seen seen rest.reverse) rest ++ add_dir_writes seen rest.reverse

/-- The seen set after the parent-directory loop. -/
def apd_seen (seen : Seen) : List String → Seen
  | [] => seen
  | _ :: rest => apd_seen (add_dir_seen seen rest.reverse) rest

theorem apd_entries (rp : List String) : ∀ (db : StagedDB) (seen : Seen),
    (add_parent_dirs_rev db seen rp).1.entries = apd_writes seen rp ++ db.entries := by
  induction rp with
  | nil => intro db seen; rfl
  | cons x rest ih =>
    intro db seen
    simp only [add_parent_dirs_rev, apd_writes]
    rw [ih, add_dir_entries, add_dir_seen_eq, List.append_assoc]

theorem apd_seen_eq (rp : List String) : ∀ (db : StagedDB) (seen : Seen),
    (add_parent_dirs_rev db seen rp).2 = apd_seen seen rp := by
  induction rp with
  | nil => intro db seen; rfl
  | cons x rest ih =>
    intro db seen
    simp only [add_parent_dirs_rev, apd_seen]
    rw [ih, add_dir_seen_eq]

theorem lookupEntries_append (l₁ l₂ : List (RelPath × StagedMerkleTreeNode)) (k : RelPath) :
    lookupEntries (l₁ ++ l₂) k =
      match lookupEntries l₁ k with
      | some v => some v
      | none => lookupEntries l₂ k := by
  induction l₁ with
  | nil => rfl
  | cons e rest ih => by_cases h : e.1 = k <;> simp [lookupEntries, h, ih]

theorem lookupEntries_add_dir_writes_ne (seen : Seen) (p k : RelPath) (h : p ≠ k) :
    lookupEntries (add_dir_writes seen p) k = none := by
  unfold add_dir_writes
  split <;> simp [lookupEntries, h]

/-- Every key the parent-directory loop writes is strictly shorter than
the iterated path, so a lookup at a key at least as long misses. -/
theorem lookupEntries_apd_writes_long (rp : List String) :
    ∀ (seen : Seen) (k : RelPath), rp.length ≤ k.length →
      lookupEntries (apd_writes seen rp) k = none := by
  induction rp with
  | nil => intros; rfl
  | cons x rest ih =>
    intro seen k hk
    simp only [apd_writes]
    rw [lookupEntries_append]
    have hrest : rest.length ≤ k.length := by
      simp only [List.length_cons] at hk; omega
    rw [ih _ k hrest]
    have hne : rest.reverse ≠ k := by
      intro he
      have : rest.reverse.length = k.length := congrArg List.length he
      simp only [List.length_reverse] at this
      simp only [List.length_cons] at hk
      omega
    exact lookupEntries_add_dir_writes_ne seen _ k hne

theorem dbGet_dbPut (db : StagedDB) (k k' : RelPath) (v : StagedMerkleTreeNode) :
    dbGet (dbPut db k v) k' = if k = k' then some v else dbGet db k' := rfl

/-- After `p_add_file_node_to_staged_db`, the file's own key holds the
staged file entry (the parent-directory writes cannot shadow it). -/
theorem dbGet_p_add_file_self (db : StagedDB) (path : RelPath)
    (st : StagedEntryStatus) (fn : FileNode) (seen : Seen) :
    dbGet (p_add_file_node_to_staged_db db path st fn seen).1.1 path =
      some ⟨st, .file fn⟩ := by
  unfold p_add_file_node_to_staged_db dbGet
  simp only
  rw [apd_entries, lookupEntries_append]
  rw [lookupEntries_apd_writes_long path.reverse seen path (by simp)]
  simp [dbPut, lookupEntries]

/-! ### The conflict-upgrade loop, characterized -/

theorem filter_ne_idem (l : List RelPath) (x : RelPath) :
    (l.filter (fun p => p != x)).filter (fun p => p != x) =
      l.filter (fun p => p != x) := by
  induction l with
  | nil => rfl
  | cons a rest ih =>
    by_cases h : a = x <;> simp [List.filter_cons, h, ih]

theorem conflict_upgrade_spec (snapshot : List RelPath) :
    ∀ (cdb : List RelPath) (rel : RelPath) (st : StagedEntryStatus),
      conflict_upgrade_loop cdb snapshot rel st =
        (if rel ∈ snapshot then .Modified else st,
         if rel ∈ snapshot then mark_conflict_as_resolved cdb rel else cdb) := by
  induction snapshot with
  | nil => intros; simp [conflict_upgrade_loop]
  | cons c cs ih =>
    intro cdb rel st
    simp only [conflict_upgrade_loop]
    by_cases h : c = rel
    · subst h
      rw [if_pos rfl, ih]
      simp only [List.mem_cons, true_or, if_true]
      by_cases hc : c ∈ cs <;>
        simp [hc, mark_conflict_as_resolved, filter_ne_idem]
    · rw [if_neg h, ih]
      have hrc : rel ∈ c :: cs ↔ rel ∈ cs := by
        constructor
        · intro hm
          rcases List.mem_cons.mp hm with rfl | hm'
          · exact absurd rfl h
          · exact hm'
        · exact fun hm => List.mem_cons_of_mem c hm
      simp only [hrc]

/-- Claim C2: for a file processed by add (so `is_file` holds), a status
of `Unmodified` with no pending conflict upgrading it means no staged-DB
write at all (the DB is returned untouched and the result is `None`);
a status of `Added` or `Modified` means a staged entry is written for the
file's path. -/
theorem claim2_unmodified_skips_staged_write (env : Env) (conflicts : List RelPath)
    (db : StagedDB) (seen : Seen) (path : RelPath) (fst : FileStatus) :
    (fst.status = .Unmodified →
      ¬(fst.previous_file_node.isSome ∧ path ∈ conflicts) →
        (process_add_file env conflicts db seen path true fst).db = db ∧
        (process_add_file env conflicts db seen path true fst).result = none) ∧
    ((fst.status = .Added ∨ fst.status = .Modified) →
      ∃ e, dbGet (process_add_file env conflicts db seen path true fst).db path
        = some e) := by
  unfold process_add_file
  simp only [Bool.not_true, Bool.false_eq_true, if_false, list_conflicts]
  cases hprev : fst.previous_file_node with
  | none =>
    constructor
    · intro hu _
      simp [hu]
    · intro ham
      have hne : fst.status ≠ .Unmodified := by
        rcases ham with h | h <;> simp [h]
      simp only [if_neg hne]
      exact ⟨_, dbGet_p_add_file_self db path fst.status _ seen⟩
  | some fn =>
    rw [conflict_upgrade_spec]
    constructor
    · intro hu hnc
      have hmem : path ∉ conflicts := fun hm => hnc ⟨by simp [hprev], hm⟩
      simp [hmem, hu]
    · intro ham
      have hne : (if path ∈ conflicts then StagedEntryStatus.Modified else fst.status)
          ≠ .Unmodified := by
        split
        · simp
        · rcases ham with h | h <;> simp [h]
      simp only [if_neg hne]
      exact ⟨_, dbGet_p_add_file_self db path _ _ seen⟩

/-! ### Claim C3: ancestor directory coverage -/

/-- The staged DB holds an `Added` default-dir entry for `p`. -/
def hasAddedDir (db : StagedDB) (p : RelPath) : Prop :=
  dbGet db p = some ⟨.Added, .dir p⟩

theorem hasAddedDir_add_dir_preserve (db : StagedDB) (seen : Seen) (p x : RelPath)
    (h : hasAddedDir db x) : hasAddedDir (add_dir_to_staged_db db seen p).1 x := by
  unfold add_dir_to_staged_db
  split
  · exact h
  · by_cases hx : p = x
    · subst hx
      simp [hasAddedDir, dbGet, dbPut, lookupEntries]
    · unfold hasAddedDir at h ⊢
      rw [dbGet_dbPut, if_neg hx]
      exact h

theorem hasAddedDir_add_dir_self (db : StagedDB) (seen : Seen) (p : RelPath)
    (hinv : ∀ d ∈ seen, hasAddedDir db d) :
    hasAddedDir (add_dir_to_staged_db db seen p).1 p := by
  unfold add_dir_to_staged_db
  split
  · exact hinv p (by assumption)
  · simp [hasAddedDir, dbGet, dbPut, lookupEntries]

theorem add_dir_inv (db : StagedDB) (seen : Seen) (p : RelPath)
    (hinv : ∀ d ∈ seen, hasAddedDir db d) :
    ∀ d ∈ (add_dir_to_staged_db db seen p).2,
      hasAddedDir (add_dir_to_staged_db db seen p).1 d := by
  intro d hd
  rw [add_dir_seen_eq] at hd
  unfold add_dir_seen at hd
  split at hd
  · exact hasAddedDir_add_dir_preserve db seen p d (hinv d hd)
  · rcases List.mem_cons.mp hd with rfl | hd'
    · exact hasAddedDir_add_dir_self db seen d hinv
    · exact hasAddedDir_add_dir_preserve db seen p d (hinv d hd')

theorem apd_all (rp : List String) : ∀ (db : StagedDB) (seen : Seen),
    (∀ d ∈ seen, hasAddedDir db d) →
    (∀ x, hasAddedDir db x → hasAddedDir (add_parent_dirs_rev db seen rp).1 x) ∧
    (∀ d ∈ (add_parent_dirs_rev db seen rp).2,
        hasAddedDir (add_parent_dirs_rev db seen rp).1 d) ∧
    (∀ a ∈ ancestorsRev rp, hasAddedDir (add_parent_dirs_rev db seen rp).1 a) := by
  induction rp with
  | nil =>
    intro db seen hinv
    refine ⟨fun x h => h, hinv, ?_⟩
    intro a ha
    exact absurd ha (List.not_mem_nil a)
  | cons x rest ih =>
    intro db seen hinv
    simp only [add_parent_dirs_rev, ancestorsRev]
    have hinv' := add_dir_inv db seen rest.reverse hinv
    obtain ⟨P, I, A⟩ := ih (add_dir_to_staged_db db seen rest.reverse).1
      (add_dir_to_staged_db db seen rest.reverse).2 hinv'
    refine ⟨fun y hy => P y (hasAddedDir_add_dir_preserve db seen _ y hy), I, ?_⟩
    intro a ha
    rcases List.mem_cons.mp ha with rfl | ha'
    · exact P _ (hasAddedDir_add_dir_self db seen _ hinv)
    · exact A a ha'

/-- Claim C3: after `p_add_file_node_to_staged_db` stages a file entry at
a relative path, the staged DB holds an `Added` directory entry for every
ancestor of that path (`a/b`, `a` and the root `""` for `a/b/c.ext`),
provided every directory already recorded as seen has its entry in the DB
(the per-operation invariant of the shared seen-dirs set) and the file's
path is not itself recorded as a seen directory. -/
theorem claim3_ancestor_dirs_staged (db : StagedDB) (seen : Seen) (path : RelPath)
    (status : StagedEntryStatus) (fn : FileNode)
    (hseen : ∀ d ∈ seen, hasAddedDir db d) (hpath : path ∉ seen) :
    ∀ a ∈ ancestors path,
      hasAddedDir (p_add_file_node_to_staged_db db path status fn seen).1.1 a := by
  intro a ha
  unfold p_add_file_node_to_staged_db
  simp only
  have hinv : ∀ d ∈ seen, hasAddedDir (dbPut db path ⟨status, .file fn⟩) d := by
    intro d hd
    have hne : path ≠ d := fun he => hpath (he ▸ hd)
    unfold hasAddedDir
    rw [dbGet_dbPut, if_neg hne]
    exact hseen d hd
  exact (apd_all path.reverse _ seen hinv).2.2 a ha

/-! ### Claims C4 and C5 -/

/-- Claim C4, amended: `add_file_inner` calls
`store_version_from_path(hash, file)` unconditionally — exactly one store
call per processed file, for `Unmodified` files too. -/
theorem claim4_amended_store_unconditional (env : Env) (hd : Option DirNode)
    (cdb : List RelPath) (db : StagedDB) (store : List Nat) (path : RelPath)
    (is_file : Bool) (file : FsFile) :
    (add_file_inner env hd cdb db store path is_file file).store_calls =
      store ++
        [(determine_file_status env.hasher hd ((path.getLast?).getD "") path file).hash]
    := rfl

/-- Claim C5, amended: for a conflicted path whose file also has a
`FileNode` in the head commit's parent directory node, processing the add
writes a `Modified` staged entry for the path and deletes the conflict
record. -/
theorem claim5_amended_conflict_resolution (env : Env) (cdb : List RelPath)
    (db : StagedDB) (seen : Seen) (path : RelPath) (fst : FileStatus) (fn : FileNode)
    (hprev : fst.previous_file_node = some fn) (hmem : path ∈ cdb) :
    (process_add_file env cdb db seen path true fst).conflicts =
      mark_conflict_as_resolved cdb path ∧
    dbGet (process_add_file env cdb db seen path true fst).db path =
      some ⟨.Modified, .file (build_file_node env path fst)⟩ := by
  unfold process_add_file
  simp only [Bool.not_true, Bool.false_eq_true, if_false, list_conflicts, hprev]
  rw [conflict_upgrade_spec]
  simp only [hmem, if_pos]
  have hne : StagedEntryStatus.Modified ≠ .Unmodified := by simp
  rw [if_neg hne]
  exact ⟨rfl, dbGet_p_add_file_self db path _ _ seen⟩

/-! ### Concrete instances used by counterexamples and witnesses -/

/-- A concrete environment: the content hash of a byte list is its
length. -/
def exEnv : Env :=
  { hasher := fun b => b.length
    file_mime_type := fun _ => ""
    datatype_from_mimetype := fun _ _ => .Binary
    get_file_metadata := fun _ _ => none
    get_metadata_hash := fun _ => 0
    get_combined_hash := fun a b => a + b
    extension_of := fun _ => "" }

/-- The empty staged DB. -/
def exDB : StagedDB := ⟨[], 0⟩

/-- A concrete modification time. -/
def exTime : FileTime := ⟨0, 0⟩

/-- A one-byte file whose `exEnv` hash is `1`. -/
def exFile : FsFile := ⟨[7], ⟨1, exTime⟩⟩

/-- A head `FileNode` matching `exFile` (same hash, same mtime). -/
def exNode : FileNode := ⟨"a.txt", 1, 1, none, 1, 0, 0, .Binary, none, "", ""⟩

/-- A head directory node containing `exNode` under `a.txt`. -/
def exDir : DirNode := ⟨[("a.txt", .file exNode)]⟩

/-- Claim C4, counterexample: `exFile` is classified `Unmodified`
against `exDir`, yet `add_file_inner` still issues a
`store_version_from_path` call for it, so the store call is not
conditional on the status. -/
theorem claim4_counterexample_store_on_unmodified :
    (determine_file_status exEnv.hasher (some exDir) "a.txt" ["a.txt"] exFile).status
      = .Unmodified ∧
    (add_file_inner exEnv (some exDir) [] exDB [] ["a.txt"] true exFile).store_calls
      = [1] := ⟨rfl, rfl⟩

/-- Claim C2, witness: at a concrete `Unmodified` file status with no
pending conflicts, `process_add_file` leaves the staged DB untouched. -/
theorem claim2_witness :
    (process_add_file exEnv [] exDB [] ["a.txt"] true
        ⟨["a.txt"], .Unmodified, 1, 1, exTime, none, some exNode⟩).db = exDB ∧
    (process_add_file exEnv [] exDB [] ["a.txt"] true
        ⟨["a.txt"], .Unmodified, 1, 1, exTime, none, some exNode⟩).result = none :=
  (claim2_unmodified_skips_staged_write exEnv [] exDB [] ["a.txt"]
    ⟨["a.txt"], .Unmodified, 1, 1, exTime, none, some exNode⟩).1 rfl (by simp)

/-- Claim C3, witness: staging a file at `a/b/c.ext` into the empty DB
leaves `Added` dir entries at `a/b`, `a` and the root. -/
theorem claim3_witness :
    hasAddedDir
      (p_add_file_node_to_staged_db exDB ["a", "b", "c.ext"] .Added exNode []).1.1
      ["a", "b"] ∧
    hasAddedDir
      (p_add_file_node_to_staged_db exDB ["a", "b", "c.ext"] .Added exNode []).1.1
      ["a"] ∧
    hasAddedDir
      (p_add_file_node_to_staged_db exDB ["a", "b", "c.ext"] .Added exNode []).1.1
      [] := by
  refine ⟨?_, ?_, ?_⟩ <;>
    exact claim3_ancestor_dirs_staged exDB [] ["a", "b", "c.ext"] .Added exNode
      (by simp) (by simp) _ (by decide)

/-- Claim C5, counterexample: a pending conflict for `c.txt` whose file
has no `FileNode` in the head directory node — the add stages the entry
as `Added`, not `Modified`, and the conflict record is kept. -/
theorem claim5_counterexample_untracked_conflict_ignored :
    (add_file_inner exEnv none [["c.txt"]] exDB [] ["c.txt"] true exFile).conflicts
      = [["c.txt"]] ∧
    ((add_file_inner exEnv none [["c.txt"]] exDB [] ["c.txt"] true exFile).db.entries.map
        (fun e => (e.1, e.2.status)))
      = [([], .Added), (["c.txt"], .Added)] := ⟨rfl, rfl⟩

/-- Claim C5, witness: a concrete conflicted, head-tracked path gets a
`Modified` staged entry and its conflict record removed. -/
theorem claim5_witness :
    (process_add_file exEnv [["a.txt"]] exDB [] ["a.txt"] true
        ⟨["a.txt"], .Unmodified, 2, 1, exTime, none, some exNode⟩).conflicts = [] ∧
    dbGet (process_add_file exEnv [["a.txt"]] exDB [] ["a.txt"] true
        ⟨["a.txt"], .Unmodified, 2, 1, exTime, none, some exNode⟩).db ["a.txt"] =
      some ⟨.Modified, .file (build_file_node exEnv ["a.txt"]
        ⟨["a.txt"], .Unmodified, 2, 1, exTime, none, some exNode⟩)⟩ := by
  have h := claim5_amended_conflict_resolution exEnv [["a.txt"]] exDB [] ["a.txt"]
    ⟨["a.txt"], .Unmodified, 2, 1, exTime, none, some exNode⟩ exNode rfl (by simp)
  exact ⟨by rw [h.1]; rfl, h.2⟩

/-- A head `FileNode` with 5 recorded bytes and a hash differing from
`exFile10`'s. -/
def exNode10 : FileNode := ⟨"a.txt", 99, 99, none, 5, 0, 0, .Binary, none, "", ""⟩

/-- A head directory node containing `exNode10`. -/
def exDir10 : DirNode := ⟨[("a.txt", .file exNode10)]⟩

/-- A 7-byte-metadata file with the same mtime as `exNode10` but
different content hash. -/
def exFile10 : FsFile := ⟨[7], ⟨7, exTime⟩⟩

/-- Claim C10, witness: a concrete mtime-equal, hash-different file
whose staged `num_bytes` (5, from the old `FileNode`) differs from the
current filesystem length (7). -/
theorem claim10_witness :
    (determine_file_status exEnv.hasher (some exDir10) "a.txt" ["a.txt"]
      exFile10).num_bytes = 5 ∧
    exFile10.metadata.len = 7 :=
  ⟨(claim10_modified_same_mtime_keeps_old_num_bytes exEnv.hasher (some exDir10)
      "a.txt" ["a.txt"] exFile10 exNode10 rfl rfl (by decide)).1, rfl⟩

/-! ### The directory walk (`process_add_dir`) and claim C6

`process_add_dir` walks the tree and, per visited directory, stages the
directory entry and processes its child files in parallel, aggregating
atomic counters.  The embedding linearizes the parallel iteration (the
per-file work is independent; the staged DB and counters absorb the
writes in list order) and models the walk for a root directory whose
direct children are files — the shape every cited claim is about. -/

/-- The per-operation aggregate of `process_add_dir`: staged DB, conflict
store, the version-store call log, and the two atomic counters. -/
structure DirAddState where
  db : StagedDB
  conflicts : List RelPath
  store_calls : List Nat
  added_files : Nat
  unchanged_files : Nat
deriving Repr

/-- The counter update of the per-file loop: a staged file node bumps
`added_files`, a skipped (`None`) result bumps `unchanged_files`, a
default dir node bumps neither. -/
def count_step (added unchanged : Nat) (r : Option StagedMerkleTreeNode) : Nat × Nat :=
  match r with
  | some node =>
    match node.node with
    | .file _ => (added + 1, unchanged)
    | .dir _ => (added, unchanged)
  | none => (added, unchanged + 1)

/-- The per-file loop body of `process_add_dir`: determine the status
against the directory's head node, store the version, `process_add_file`,
and bump `added_files` on a staged file node or `unchanged_files` on a
skipped (`None`) result. -/
def process_dir_files (env : Env) (head_dir : Option DirNode) :
    List (String × FsFile) → Seen → DirAddState → DirAddState × Seen
  | [], seen, s => (s, seen)
  | (name, f) :: rest, seen, s =>
    let fst := determine_file_status env.hasher head_dir name [name] f
    let store_calls := s.store_calls ++ [fst.hash]
    let r := process_add_file env s.conflicts s.db seen [name] true fst
    let counters := count_step s.added_files s.unchanged_files r.result
    process_dir_files env head_dir rest r.seen
      ⟨r.db, r.conflicts, store_calls, counters.1, counters.2⟩

/-- `process_add_dir` from `add.rs`, for a root directory of files: fresh
seen-dirs set, stage the visited directory's own entry, then the per-file
loop. -/
def process_add_dir (env : Env) (head_dir : Option DirNode)
    (conflict_db : List RelPath) (db : StagedDB) (store_calls : List Nat)
    (files : List (String × FsFile)) : DirAddState :=
  let seen : Seen := []
  let r0 := add_dir_to_staged_db db seen []
  (process_dir_files env head_dir files r0.2
    ⟨r0.1, conflict_db, store_calls, 0, 0⟩).1

/-- The staged-DB entries one `process_add_file` call (with an empty
conflict store) prepends, as a pure function of everything but the DB. -/
def paf_writes0 (env : Env) (seen : Seen) (path : RelPath) (is_file : Bool)
    (fst : FileStatus) : List (RelPath × StagedMerkleTreeNode) :=
  if !is_file then []
  else if fst.status = .Unmodified then []
  else apd_writes seen path.reverse ++
    [(path, ⟨fst.status, .file (build_file_node env path fst)⟩)]

/-- The seen set after one `process_add_file` call. -/
def paf_seen0 (seen : Seen) (path : RelPath) (is_file : Bool) (fst : FileStatus) :
    Seen :=
  if !is_file then seen
  else if fst.status = .Unmodified then seen
  else apd_seen seen path.reverse

/-- The result of one `process_add_file` call with no pending conflicts. -/
def paf_result0 (env : Env) (path : RelPath) (is_file : Bool) (fst : FileStatus) :
    Option StagedMerkleTreeNode :=
  if !is_file then some ⟨.Added, .dir []⟩
  else if fst.status = .Unmodified then none
  else some ⟨fst.status, .file (build_file_node env path fst)⟩

theorem paf0_entries (env : Env) (db : StagedDB) (seen : Seen)
    (path : RelPath) (is_file : Bool) (fst : FileStatus) :
    (process_add_file env [] db seen path is_file fst).db.entries =
      paf_writes0 env seen path is_file fst ++ db.entries := by
  unfold process_add_file paf_writes0
  cases hf : is_file with
  | false => simp
  | true =>
    cases hp : fst.previous_file_node <;>
    · simp only [hp, Bool.not_true, Bool.false_eq_true, if_false, list_conflicts,
        conflict_upgrade_loop]
      by_cases hu : fst.status = .Unmodified
      · simp [hu]
      · simp only [if_neg hu]
        unfold p_add_file_node_to_staged_db
        simp only
        rw [apd_entries]
        simp [dbPut, List.append_assoc]

theorem paf0_seen (env : Env) (db : StagedDB) (seen : Seen)
    (path : RelPath) (is_file : Bool) (fst : FileStatus) :
    (process_add_file env [] db seen path is_file fst).seen =
      paf_seen0 seen path is_file fst := by
  unfold process_add_file paf_seen0
  cases hf : is_file with
  | false => simp
  | true =>
    cases hp : fst.previous_file_node <;>
    · simp only [hp, Bool.not_true, Bool.false_eq_true, if_false, list_conflicts,
        conflict_upgrade_loop]
      by_cases hu : fst.status = .Unmodified
      · simp [hu]
      · simp only [if_neg hu]
        unfold p_add_file_node_to_staged_db
        simp only
        rw [apd_seen_eq]

theorem paf0_conflicts (env : Env) (db : StagedDB) (seen : Seen)
    (path : RelPath) (is_file : Bool) (fst : FileStatus) :
    (process_add_file env [] db seen path is_file fst).conflicts = [] := by
  unfold process_add_file
  cases hf : is_file with
  | false => simp
  | true =>
    cases hp : fst.previous_file_node <;>
    · simp only [hp, Bool.not_true, Bool.false_eq_true, if_false, list_conflicts,
        conflict_upgrade_loop]
      by_cases hu : fst.status = .Unmodified
      · simp [hu]
      · simp only [if_neg hu]

theorem paf0_result (env : Env) (db : StagedDB) (seen : Seen)
    (path : RelPath) (is_file : Bool) (fst : FileStatus) :
    (process_add_file env [] db seen path is_file fst).result =
      paf_result0 env path is_file fst := by
  unfold process_add_file paf_result0
  cases hf : is_file with
  | false => simp
  | true =>
    cases hp : fst.previous_file_node <;>
    · simp only [hp, Bool.not_true, Bool.false_eq_true, if_false, list_conflicts,
        conflict_upgrade_loop]
      by_cases hu : fst.status = .Unmodified
      · simp [hu]
      · simp only [if_neg hu]
        rfl

/-- The staged-DB entries the per-file loop prepends over a file list, a
pure function of the environment, the head node and the seen set. -/
def dir_writes0 (env : Env) (head_dir : Option DirNode) :
    Seen → List (String × FsFile) → List (RelPath × StagedMerkleTreeNode)
  | _, [] => []
  | seen, (name, f) :: rest =>
    let fst := determine_file_status env.hasher head_dir name [name] f
    dir_writes0 env head_dir (paf_seen0 seen [name] true fst) rest ++
      paf_writes0 env seen [name] true fst

/-- The (added, unchanged) counter deltas of the per-file loop. -/
def dir_counts0 (env : Env) (head_dir : Option DirNode) :
    List (String × FsFile) → Nat × Nat
  | [] => (0, 0)
  | (name, f) :: rest =>
    let fst := determine_file_status env.hasher head_dir name [name] f
    let rc := dir_counts0 env head_dir rest
    count_step rc.1 rc.2 (paf_result0 env [name] true fst)

theorem count_step_fst (a u : Nat) (r : Option StagedMerkleTreeNode) :
    (count_step a u r).1 = a + (count_step 0 0 r).1 := by
  cases r with
  | none => simp [count_step]
  | some node => cases h : node.node <;> simp [count_step, h]

theorem count_step_snd (a u : Nat) (r : Option StagedMerkleTreeNode) :
    (count_step a u r).2 = u + (count_step 0 0 r).2 := by
  cases r with
  | none => simp [count_step]
  | some node => cases h : node.node <;> simp [count_step, h]

theorem process_dir_files_spec (env : Env) (hd : Option DirNode)
    (files : List (String × FsFile)) :
    ∀ (seen : Seen) (db : StagedDB) (store : List Nat) (a u : Nat),
      (process_dir_files env hd files seen ⟨db, [], store, a, u⟩).1.db.entries =
          dir_writes0 env hd seen files ++ db.entries ∧
      (process_dir_files env hd files seen ⟨db, [], store, a, u⟩).1.conflicts = [] ∧
      (process_dir_files env hd files seen ⟨db, [], store, a, u⟩).1.added_files =
          a + (dir_counts0 env hd files).1 ∧
      (process_dir_files env hd files seen ⟨db, [], store, a, u⟩).1.unchanged_files =
          u + (dir_counts0 env hd files).2 := by
  induction files with
  | nil =>
    intro seen db store a u
    simp [process_dir_files, dir_writes0, dir_counts0]
  | cons nf rest ih =>
    obtain ⟨name, f⟩ := nf
    intro seen db store a u
    simp only [process_dir_files, dir_writes0, dir_counts0]
    rw [paf0_conflicts, paf0_result, paf0_seen, count_step_fst a u, count_step_snd a u,
      count_step_fst (dir_counts0 env hd rest).1 (dir_counts0 env hd rest).2,
      count_step_snd (dir_counts0 env hd rest).1 (dir_counts0 env hd rest).2]
    obtain ⟨e1, e2, e3, e4⟩ := ih
      (paf_seen0 seen [name] true (determine_file_status env.hasher hd name [name] f))
      (process_add_file env [] db seen [name] true
        (determine_file_status env.hasher hd name [name] f)).db
      (store ++ [(determine_file_status env.hasher hd name [name] f).hash])
      (a + (count_step 0 0 (paf_result0 env [name] true
        (determine_file_status env.hasher hd name [name] f))).1)
      (u + (count_step 0 0 (paf_result0 env [name] true
        (determine_file_status env.hasher hd name [name] f))).2)
    refine ⟨?_, e2, ?_, ?_⟩
    · rw [e1, paf0_entries, List.append_assoc]
    · rw [e3]; omega
    · rw [e4]; omega

theorem process_add_dir_spec (env : Env) (hd : Option DirNode) (db : StagedDB)
    (store : List Nat) (files : List (String × FsFile)) :
    (process_add_dir env hd [] db store files).db.entries =
        (dir_writes0 env hd [[]] files ++ [([], ⟨.Added, .dir []⟩)]) ++ db.entries ∧
    (process_add_dir env hd [] db store files).conflicts = [] ∧
    (process_add_dir env hd [] db store files).added_files =
        (dir_counts0 env hd files).1 ∧
    (process_add_dir env hd [] db store files).unchanged_files =
        (dir_counts0 env hd files).2 := by
  unfold process_add_dir
  have h0 : add_dir_to_staged_db db [] [] =
      (dbPut db [] ⟨.Added, .dir []⟩, [([] : RelPath)]) := by
    simp [add_dir_to_staged_db]
  simp only [h0]
  obtain ⟨e1, e2, e3, e4⟩ := process_dir_files_spec env hd files [[]]
    (dbPut db [] ⟨.Added, .dir []⟩) store 0 0
  refine ⟨?_, e2, by rw [e3]; omega, by rw [e4]; omega⟩
  rw [e1]
  simp [dbPut, List.append_assoc]

theorem lookupEntries_self_append_idem
    (w e : List (RelPath × StagedMerkleTreeNode)) (k : RelPath) :
    lookupEntries (w ++ (w ++ e)) k = lookupEntries (w ++ e) k := by
  rw [lookupEntries_append, lookupEntries_append]
  cases h : lookupEntries w k <;> simp

/-- Claim C6, amended: running the directory add twice with no
intervening filesystem changes repeats the first run's writes instead of
performing none — the second run produces the same counter values as the
first and leaves the staged-DB mapping unchanged (every lookup agrees
with the state after the first run), but it does write. -/
theorem claim6_amended_second_add_repeats (env : Env) (hd : Option DirNode)
    (db : StagedDB) (store : List Nat) (files : List (String × FsFile)) :
    (process_add_dir env hd [] db store files).conflicts = [] ∧
    (process_add_dir env hd (process_add_dir env hd [] db store files).conflicts
        (process_add_dir env hd [] db store files).db
        (process_add_dir env hd [] db store files).store_calls files).added_files =
      (process_add_dir env hd [] db store files).added_files ∧
    (process_add_dir env hd (process_add_dir env hd [] db store files).conflicts
        (process_add_dir env hd [] db store files).db
        (process_add_dir env hd [] db store files).store_calls files).unchanged_files =
      (process_add_dir env hd [] db store files).unchanged_files ∧
    ∀ k, dbGet (process_add_dir env hd
          (process_add_dir env hd [] db store files).conflicts
          (process_add_dir env hd [] db store files).db
          (process_add_dir env hd [] db store files).store_calls files).db k =
        dbGet (process_add_dir env hd [] db store files).db k := by
  obtain ⟨e1, e2, e3, e4⟩ := process_add_dir_spec env hd db store files
  rw [e2]
  obtain ⟨f1, f2, f3, f4⟩ := process_add_dir_spec env hd
    (process_add_dir env hd [] db store files).db
    (process_add_dir env hd [] db store files).store_calls files
  refine ⟨rfl, by rw [f3, e3], by rw [f4, e4], ?_⟩
  intro k
  unfold dbGet
  rw [f1, e1, lookupEntries_self_append_idem]

/-- A one-file working tree for the C6 counterexample. -/
def exFiles : List (String × FsFile) := [("b.txt", exFile)]

/-- Claim C6, counterexample: with a fresh repository (no head commit)
holding one file, the second identical `add` does not count the file as
unchanged (`unchanged_files = 0`, one file total) and it does write to
the staged DB again (the write counter grows from 2 to 4). -/
theorem claim6_counterexample_readd_rewrites :
    (process_add_dir exEnv none
        (process_add_dir exEnv none [] exDB [] exFiles).conflicts
        (process_add_dir exEnv none [] exDB [] exFiles).db
        (process_add_dir exEnv none [] exDB [] exFiles).store_calls
        exFiles).unchanged_files = 0 ∧
    exFiles.length = 1 ∧
    (process_add_dir exEnv none [] exDB [] exFiles).db.writes = 2 ∧
    (process_add_dir exEnv none
        (process_add_dir exEnv none [] exDB [] exFiles).conflicts
        (process_add_dir exEnv none [] exDB [] exFiles).db
        (process_add_dir exEnv none [] exDB [] exFiles).store_calls
        exFiles).db.writes = 4 := ⟨rfl, rfl, rfl, rfl⟩

/-! ## The ref-backed stash engine (`command/stash.rs`)

Stash refs live at `<stash-dir>/<k>`; since `stash_ref_name` is injective
in `k`, the ref store is keyed directly by the slot number.  Commits are
identified by their id strings.  `save` is modelled at the ref level: the
commit construction (status, index view, commit writer, reset) happens
before the ref shifting and supplies the new stash commit id. -/

/-- The ref store: slot number → commit id, most recent write first. -/
abbrev RefStore := List (Nat × String)

/-- `api::local::refs::get_commit_id_for_ref` for a stash slot. -/
def getRef : RefStore → Nat → Option String
  | [], _ => none
  | r :: rest, k => if r.1 = k then some r.2 else getRef rest k

/-- `RefWriter::create_ref` (overwrite semantics). -/
def createRef (refs : RefStore) (k : Nat) (commit_id : String) : RefStore :=
  (k, commit_id) :: refs.filter (fun r => r.1 != k)

/-- `RefWriter::delete_ref`. -/
def deleteRef (refs : RefStore) (k : Nat) : RefStore :=
  refs.filter (fun r => r.1 != k)

/-- The loop of `list_stashes_raw`: read slots `i, i+1, …` until the
first absent ref.  `fuel` bounds the iteration; `list_stashes_raw` passes
enough fuel for any store it is called on. -/
def list_stashes_go (refs : RefStore) : Nat → Nat → List String
  | 0, _ => []
  | fuel + 1, i =>
    match getRef refs i with
    | some commit_id => commit_id :: list_stashes_go refs fuel (i + 1)
    | none => []

/-- `list_stashes_raw`: the stash commits at slots `0, 1, …` up to the
first gap. -/
def list_stashes_raw (refs : RefStore) : List String :=
  list_stashes_go refs (refs.length + 1) 0

/-- The shift loop of `save`: for `i = n-1` down to `0`, move the commit
recorded at slot `i` (read from the pre-shift snapshot `existing`) to
slot `i+1`. -/
def save_shift_loop (refs : RefStore) (existing : List String) : Nat → RefStore
  | 0 => refs
  | i + 1 =>
    save_shift_loop (createRef refs (i + 1) ((existing.get? i).getD "")) existing i

/-- The ref manipulation of `save`: shift every existing slot up by one,
then write the new stash commit at slot `0`. -/
def save_refs (refs : RefStore) (stash_commit : String) : RefStore :=
  let existing := list_stashes_raw refs
  let shifted := save_shift_loop refs existing existing.length
  createRef shifted 0 stash_commit

/-- The compaction loop of `drop_by_index`: starting at `i`, while slot
`i` exists move it down to `i-1` and delete it, then continue upward. -/
def drop_shift_loop (refs : RefStore) : Nat → Nat → RefStore
  | _, 0 => refs
  | i, fuel + 1 =>
    match getRef refs i with
    | some commit_id =>
      drop_shift_loop (deleteRef (createRef refs (i - 1) commit_id) i) (i + 1) fuel
    | none => refs

/-- `drop_by_index`: delete slot `k`, then shift every higher slot down
by one. -/
def drop_by_index (refs : RefStore) (k : Nat) : RefStore :=
  let refs' := deleteRef refs k
  drop_shift_loop refs' (k + 1) refs.length

/-- One stash-stack operation: a `save` (with the id of the stash commit
it creates) or a `drop` of a slot. -/
inductive StashOp where
  | save (commit_id : String)
  | drop (k : Nat)

/-- Apply a sequence of stash operations to the initially empty ref
store. -/
def applyStashOps (ops : List StashOp) : RefStore :=
  ops.foldl (fun refs op =>
    match op with
    | .save c => save_refs refs c
    | .drop k => drop_by_index refs k) []

/-- The stash stack holds exactly slots `0 … n-1`. -/
def IsStack (refs : RefStore) (n : Nat) : Prop :=
  ∀ k, (getRef refs k).isSome ↔ k < n

theorem getRef_filter_ne (refs : RefStore) (k j : Nat) (h : j ≠ k) :
    getRef (refs.filter (fun r => r.1 != k)) j = getRef refs j := by
  induction refs with
  | nil => rfl
  | cons r rest ih =>
    by_cases hr : r.1 = k
    · rw [List.filter_cons_of_neg (by simp [hr])]
      rw [ih]
      have : ¬(r.1 = j) := by rw [hr]; exact fun he => h he.symm
      simp [getRef, this]
    · rw [List.filter_cons_of_pos (by simp [hr])]
      by_cases hj : r.1 = j <;> simp [getRef, hj, ih]

theorem getRef_filter_self (refs : RefStore) (k : Nat) :
    getRef (refs.filter (fun r => r.1 != k)) k = none := by
  induction refs with
  | nil => rfl
  | cons r rest ih =>
    by_cases hr : r.1 = k
    · rw [List.filter_cons_of_neg (by simp [hr])]
      exact ih
    · rw [List.filter_cons_of_pos (by simp [hr])]
      simp [getRef, hr, ih]

theorem getRef_createRef (refs : RefStore) (k j : Nat) (c : String) :
    getRef (createRef refs k c) j = if k = j then some c else getRef refs j := by
  unfold createRef
  by_cases h : k = j
  · simp [getRef, h]
  · rw [if_neg h]
    simp only [getRef, if_neg h]
    exact getRef_filter_ne refs k j (fun he => h he.symm)

theorem getRef_deleteRef (refs : RefStore) (k j : Nat) :
    getRef (deleteRef refs k) j = if k = j then none else getRef refs j := by
  unfold deleteRef
  by_cases h : k = j
  · subst h; simp [getRef_filter_self]
  · rw [if_neg h]
    exact getRef_filter_ne refs k j (fun he => h he.symm)

/-- A present slot has its number among the keys. -/
theorem mem_keys_of_getRef (refs : RefStore) (k : Nat)
    (h : (getRef refs k).isSome) : k ∈ refs.map Prod.fst := by
  induction refs with
  | nil => simp [getRef] at h
  | cons r rest ih =>
    by_cases hr : r.1 = k
    · exact List.mem_map.mpr ⟨r, List.mem_cons_self r rest, hr⟩
    · simp only [getRef, if_neg hr] at h
      exact List.mem_cons_of_mem _ (ih h)

/-- A dense stack of `n` slots has at least `n` entries. -/
theorem isStack_length_le (refs : RefStore) (n : Nat)
    (hs : IsStack refs n) : n ≤ refs.length := by
  have hsub : List.range n ⊆ refs.map Prod.fst := by
    intro j hj
    exact mem_keys_of_getRef refs j ((hs j).mpr (List.mem_range.mp hj))
  have := (List.nodup_range n).subperm hsub
  have hlen := this.length_le
  simpa using hlen

theorem list_stashes_go_length (refs : RefStore) (n : Nat) (hs : IsStack refs n) :
    ∀ (fuel i : Nat), i ≤ n → n - i < fuel →
      (list_stashes_go refs fuel i).length = n - i := by
  intro fuel
  induction fuel with
  | zero => intro i _ h; omega
  | succ f ih =>
    intro i hi hf
    by_cases hin : i < n
    · have hsome : (getRef refs i).isSome := (hs i).mpr hin
      obtain ⟨c, hcv⟩ := Option.isSome_iff_exists.mp hsome
      simp only [list_stashes_go, hcv, List.length_cons]
      rw [ih (i + 1) (by omega) (by omega)]
      omega
    · have hnone : getRef refs i = none := by
        cases h : getRef refs i with
        | none => rfl
        | some c =>
          exfalso
          have := (hs i).mp (by simp [h])
          omega
      simp only [list_stashes_go, hnone, List.length_nil]
      omega

theorem save_shift_getRef (existing : List String) :
    ∀ (m : Nat) (refs : RefStore) (j : Nat),
      (getRef (save_shift_loop refs existing m) j).isSome ↔
        (1 ≤ j ∧ j ≤ m) ∨ (getRef refs j).isSome := by
  intro m
  induction m with
  | zero =>
    intro refs j
    simp only [save_shift_loop]
    constructor
    · exact Or.inr
    · rintro (⟨h1, h2⟩ | h)
      · omega
      · exact h
  | succ m ih =>
    intro refs j
    simp only [save_shift_loop]
    rw [ih, getRef_createRef]
    by_cases h : m + 1 = j
    · subst h
      simp only [if_pos rfl, Option.isSome_some]
      constructor
      · intro _; exact Or.inl (by omega)
      · intro _; exact Or.inr (by simp)
    · rw [if_neg h]
      constructor
      · rintro (⟨h1, h2⟩ | hr)
        · exact Or.inl (by omega)
        · exact Or.inr hr
      · rintro (⟨h1, h2⟩ | hr)
        · exact Or.inl (by omega)
        · exact Or.inr hr

/-- `save` turns a dense stack of `n` slots into a dense stack of `n+1`
slots: every slot shifts up by one and the new commit lands at slot 0. -/
theorem save_refs_isStack (refs : RefStore) (n : Nat) (c : String)
    (hs : IsStack refs n) : IsStack (save_refs refs c) (n + 1) := by
  unfold save_refs
  have hlen : (list_stashes_raw refs).length = n := by
    have hb := isStack_length_le refs n hs
    have := list_stashes_go_length refs n hs (refs.length + 1) 0 (by omega) (by omega)
    simpa [list_stashes_raw] using this
  intro k
  rw [getRef_createRef]
  by_cases h0 : 0 = k
  · subst h0; simp
  · rw [if_neg h0]
    rw [save_shift_getRef, hlen, hs k]
    omega

theorem drop_shift_none (refs : RefStore) (i fuel : Nat)
    (h : getRef refs i = none) : drop_shift_loop refs i fuel = refs := by
  cases fuel <;> simp [drop_shift_loop, h]

theorem drop_shift_spec : ∀ (fuel : Nat) (refs : RefStore) (i n : Nat),
    1 ≤ i → i ≤ n → n ≤ i + fuel →
    (∀ j, (getRef refs j).isSome ↔ (j + 1 < i ∨ (i ≤ j ∧ j < n))) →
    ∀ j, (getRef (drop_shift_loop refs i fuel) j).isSome ↔ j + 1 < n := by
  intro fuel
  induction fuel with
  | zero =>
    intro refs i n h1 h2 h3 hc j
    have hin : i = n := by omega
    subst hin
    simp only [drop_shift_loop]
    rw [hc j]
    omega
  | succ f ih =>
    intro refs i n h1 h2 h3 hc j
    by_cases hin : i < n
    · have hsome : (getRef refs i).isSome := (hc i).mpr (Or.inr ⟨le_refl i, hin⟩)
      obtain ⟨c, hcv⟩ := Option.isSome_iff_exists.mp hsome
      simp only [drop_shift_loop, hcv]
      refine ih _ (i + 1) n (by omega) (by omega) (by omega) ?_ j
      intro j'
      rw [getRef_deleteRef]
      by_cases hji : i = j'
      · rw [if_pos hji]
        simp only [Option.isSome_none, Bool.false_eq_true, false_iff]
        omega
      · rw [if_neg hji, getRef_createRef]
        by_cases hj1 : i - 1 = j'
        · rw [if_pos hj1]
          simp only [Option.isSome_some, true_iff]
          omega
        · rw [if_neg hj1, hc j']
          omega
    · have hieq : i = n := by omega
      have hnone : getRef refs i = none := by
        cases h : getRef refs i with
        | none => rfl
        | some c =>
          exfalso
          have := (hc i).mp (by simp [h])
          omega
      rw [drop_shift_none _ _ _ hnone, hc j]
      omega

/-- `drop_by_index` keeps the stack dense: dropping an existing slot
shifts every higher slot down (density `n - 1`); dropping a nonexistent
slot is a no-op (density `n`). -/
theorem drop_by_index_isStack (refs : RefStore) (n k : Nat) (hs : IsStack refs n) :
    IsStack (drop_by_index refs k) (if k < n then n - 1 else n) := by
  unfold drop_by_index
  by_cases hk : k < n
  · rw [if_pos hk]
    have hchar : ∀ j, (getRef (deleteRef refs k) j).isSome ↔
        (j + 1 < k + 1 ∨ (k + 1 ≤ j ∧ j < n)) := by
      intro j
      rw [getRef_deleteRef]
      by_cases hj : k = j
      · rw [if_pos hj]
        simp only [Option.isSome_none, Bool.false_eq_true, false_iff]
        omega
      · rw [if_neg hj, hs j]
        omega
    have hb := isStack_length_le refs n hs
    intro j
    rw [drop_shift_spec refs.length (deleteRef refs k) (k + 1) n (by omega) (by omega)
      (by omega) hchar j]
    omega
  · rw [if_neg hk]
    have hknone : getRef (deleteRef refs k) (k + 1) = none := by
      rw [getRef_deleteRef, if_neg (by omega)]
      cases h : getRef refs (k + 1) with
      | none => rfl
      | some c =>
        exfalso
        have := (hs (k + 1)).mp (by simp [h])
        omega
    rw [drop_shift_none _ _ _ hknone]
    intro j
    rw [getRef_deleteRef]
    by_cases hj : k = j
    · rw [if_pos hj]
      simp only [Option.isSome_none, Bool.false_eq_true, false_iff]
      omega
    · rw [if_neg hj]
      exact hs j

theorem applyStashOps_aux (ops : List StashOp) : ∀ refs : RefStore,
    (∃ n, IsStack refs n) →
    ∃ n, IsStack (ops.foldl (fun refs op =>
      match op with
      | .save c => save_refs refs c
      | .drop k => drop_by_index refs k) refs) n := by
  induction ops with
  | nil => intro refs h; exact h
  | cons op rest ih =>
    rintro refs ⟨n, hn⟩
    simp only [List.foldl_cons]
    apply ih
    cases op with
    | save c => exact ⟨n + 1, save_refs_isStack refs n c hn⟩
    | drop k => exact ⟨_, drop_by_index_isStack refs n k hn⟩

/-- Claim C7: after any sequence of stash `save` and `drop` operations
from the empty store, the set of existing stash refs is exactly
`{0, 1, …, N-1}` for some `N` — a slot exists precisely when its number
is below `N`, so if slot `k` exists then every slot in `0..k` exists. -/
theorem claim7_stash_stack_density (ops : List StashOp) :
    ∃ n, ∀ k, (getRef (applyStashOps ops) k).isSome ↔ k < n := by
  have h0 : ∃ n, IsStack ([] : RefStore) n := by
    refine ⟨0, fun k => ?_⟩
    simp [getRef]
  exact applyStashOps_aux ops [] h0

/-! ### `apply` and `pop` (ref-backed stash) and claim C8 -/

/-- The error surface of the stash engine (spec §7). -/
inductive StashErr where
  | noStashesFound
  | stashIdNotFound
  | corruptStashCommit
  | mergeConflict
deriving DecidableEq, Repr

/-- Modelled from the spec: the collaborators `apply` consults that are
not among the surfaced sources — the current HEAD commit, the commit
store's first-parent lookup (`stash_commit.parent_ids.get(0)` resolved to
a commit), and the three-way `Merger::merge_commits` outcome
(`true` = conflicts reported), per spec §4.H. -/
structure MergeEnv where
  head : String
  parent_of : String → Option String
  merge_has_conflicts : String → String → String → Bool

/-- `resolve_stash_id_to_entry`, for index-form stash ids (the slot
number of `stash@{k}`; `none` defaults to slot 0): error on an empty
stash list or an out-of-range index, else the slot's index and commit. -/
def resolve_stash_id_to_entry (refs : RefStore) (stash_id : Option Nat) :
    Except StashErr (Nat × String) :=
  match list_stashes_raw refs with
  | [] => .error .noStashesFound
  | c :: rest =>
    match stash_id with
    | none => .ok (0, c)
    | some k =>
      match (c :: rest)[k]? with
      | some ck => .ok (k, ck)
      | none => .error .stashIdNotFound

/-- `apply` from `command/stash.rs`: resolve the slot, require the stash
commit's first parent (else `CorruptStashCommit`), three-way-merge
(current HEAD, stash commit, base); conflicts end in `MergeConflict`
after a conflict-marking checkout, success in a clean checkout.  The
stash refs are never modified. -/
def apply_stash (env : MergeEnv) (refs : RefStore) (stash_id : Option Nat) :
    Except StashErr Unit :=
  match resolve_stash_id_to_entry refs stash_id with
  | .error e => .error e
  | .ok (_, stash_commit) =>
    match env.parent_of stash_commit with
    | none => .error .corruptStashCommit
    | some base =>
      if env.merge_has_conflicts env.head stash_commit base then
        .error .mergeConflict
      else
        .ok ()

/-- `pop` from `command/stash.rs`: resolve the slot, `apply` it via its
resolved ref, and only when apply returned without error drop the slot by
its resolved index (the `?` operator aborts `pop` before the drop on any
apply error).  Returns the apply outcome together with the ref store. -/
def pop_stash (env : MergeEnv) (refs : RefStore) (stash_id : Option Nat) :
    Except StashErr Unit × RefStore :=
  match resolve_stash_id_to_entry refs stash_id with
  | .error e => (.error e, refs)
  | .ok (idx, _) =>
    match apply_stash env refs (some idx) with
    | .error e => (.error e, refs)
    | .ok _ => (.ok (), drop_by_index refs idx)

theorem list_stashes_go_get (refs : RefStore) :
    ∀ (fuel i j : Nat) (c : String),
      (list_stashes_go refs fuel i)[j]? = some c → getRef refs (i + j) = some c := by
  intro fuel
  induction fuel with
  | zero => intro i j c h; simp [list_stashes_go] at h
  | succ f ih =>
    intro i j c h
    cases hg : getRef refs i with
    | none => simp [list_stashes_go, hg] at h
    | some c0 =>
      simp only [list_stashes_go, hg] at h
      cases j with
      | zero =>
        simp only [List.getElem?_cons_zero] at h
        cases h
        simpa using hg
      | succ j' =>
        simp only [List.getElem?_cons_succ] at h
        have hr := ih (i + 1) j' c h
        have heq : i + (j' + 1) = i + 1 + j' := by omega
        rw [heq]
        exact hr

theorem resolve_ok_get (refs : RefStore) (sid : Option Nat) (idx : Nat) (c : String)
    (h : resolve_stash_id_to_entry refs sid = .ok (idx, c)) :
    (list_stashes_raw refs)[idx]? = some c := by
  unfold resolve_stash_id_to_entry at h
  cases hl : list_stashes_raw refs with
  | nil => rw [hl] at h; simp at h
  | cons c0 rest =>
    rw [hl] at h
    cases sid with
    | none =>
      simp at h
      obtain ⟨h1, h2⟩ := h
      subst h1; subst h2
      simp
    | some k =>
      cases hg : (c0 :: rest)[k]? with
      | none => simp [hg] at h
      | some ck =>
        simp [hg] at h
        obtain ⟨h1, h2⟩ := h
        subst h1; subst h2
        exact hg

/-- Claim C8: `pop` equals `apply` followed by dropping the resolved slot
exactly when apply reported no conflicts; when apply reports a merge
conflict, `pop` returns that error, the ref store is untouched and the
stash slot is still present at its original index. -/
theorem claim8_pop_is_apply_then_drop (env : MergeEnv) (refs : RefStore)
    (sid : Option Nat) (idx : Nat) (c : String)
    (hres : resolve_stash_id_to_entry refs sid = .ok (idx, c)) :
    (apply_stash env refs (some idx) = .ok () →
      pop_stash env refs sid = (.ok (), drop_by_index refs idx)) ∧
    (apply_stash env refs (some idx) = .error .mergeConflict →
      pop_stash env refs sid = (.error .mergeConflict, refs) ∧
      getRef refs idx = some c) := by
  constructor
  · intro ha
    unfold pop_stash
    simp only [hres, ha]
  · intro ha
    unfold pop_stash
    simp only [hres, ha]
    refine ⟨by trivial, ?_⟩
    have hg := resolve_ok_get refs sid idx c hres
    have := list_stashes_go_get refs (refs.length + 1) 0 idx c
      (by simpa [list_stashes_raw] using hg)
    simpa using this

/-- A merge environment whose three-way merge always reports conflicts. -/
def exMergeEnvC : MergeEnv := ⟨"h", fun _ => some "b", fun _ _ _ => true⟩

/-- A one-slot stash ref store. -/
def exRefs : RefStore := [(0, "s")]

/-- Claim C8, witness: popping the only stash under an always-conflicting
merge returns `MergeConflict`, leaves the refs untouched and the slot
still at index 0. -/
theorem claim8_witness :
    pop_stash exMergeEnvC exRefs none = (.error .mergeConflict, exRefs) ∧
    getRef exRefs 0 = some "s" :=
  (claim8_pop_is_apply_then_drop exMergeEnvC exRefs none 0 "s" rfl).2 rfl

/-! ### The copytree stash (`cli/src/cmd/stash.rs`) and claim C9

For each shelved file the subcommands read the stashed bytes, the local
bytes (when the working-tree file exists) and the base bytes from the
HEAD recorded at stash time (`get_version_file_from_commit_id`; its
presence/content is an input here since revisions are outside the
surfaced sources).  The outcome per file is a pair of booleans:
(conflict recorded — local file kept, stashed bytes written). -/

/-- The per-file restore logic of the `pop` subcommand
(`cli/src/cmd/stash.rs`, pop arm). -/
def stash_pop_restore_file (stashed_content : List Nat)
    (local_content_opt : Option (List Nat)) (base_content_opt : Option (List Nat)) :
    Bool × Bool :=
  match base_content_opt with
  | some base_content =>
    let local_content := local_content_opt.getD []
    let is_local_modified := local_content != base_content
    let is_stashed_modified := stashed_content != base_content
    if is_local_modified && is_stashed_modified then
      if local_content != stashed_content then
        (true, false)
      else
        (false, true)
    else if is_stashed_modified then
      (false, true)
    else if is_local_modified then
      (false, false)
    else
      (false, false)
  | none =>
    if local_content_opt.isSome then (true, false) else (false, true)

/-- The per-file restore logic of the `apply` subcommand — the source
duplicates the pop arm's logic verbatim. -/
def stash_apply_restore_file (stashed_content : List Nat)
    (local_content_opt : Option (List Nat)) (base_content_opt : Option (List Nat)) :
    Bool × Bool :=
  match base_content_opt with
  | some base_content =>
    let local_content := local_content_opt.getD []
    let is_local_modified := local_content != base_content
    let is_stashed_modified := stashed_content != base_content
    if is_local_modified && is_stashed_modified then
      if local_content != stashed_content then
        (true, false)
      else
        (false, true)
    else if is_stashed_modified then
      (false, true)
    else if is_local_modified then
      (false, false)
    else
      (false, false)
  | none =>
    if local_content_opt.isSome then (true, false) else (false, true)

/-- Claim C9: in the copytree stash apply/pop, with stashed bytes `S`,
local bytes `L` (empty when the file is absent) and base bytes `B`: when
`B` exists a conflict is recorded (local kept) iff `L ≠ B ∧ S ≠ B ∧
L ≠ S`, and `S` is written iff `S ≠ B ∧ (L = B ∨ L = S)`; otherwise the
local file is kept unchanged.  When `B` does not exist, a conflict is
recorded iff a local file exists, else `S` is written.  The apply and pop
subcommands behave identically. -/
theorem claim9_copytree_restore_table (S : List Nat)
    (lopt bopt : Option (List Nat)) :
    stash_apply_restore_file S lopt bopt = stash_pop_restore_file S lopt bopt ∧
    (match bopt with
     | some B =>
       (stash_pop_restore_file S lopt bopt).1 =
         (decide (lopt.getD [] ≠ B) && decide (S ≠ B) && decide (lopt.getD [] ≠ S)) ∧
       (stash_pop_restore_file S lopt bopt).2 =
         (decide (S ≠ B) && (decide (lopt.getD [] = B) || decide (lopt.getD [] = S)))
     | none =>
       (stash_pop_restore_file S lopt bopt).1 = lopt.isSome ∧
       (stash_pop_restore_file S lopt bopt).2 = !lopt.isSome) := by
  refine ⟨rfl, ?_⟩
  cases bopt with
  | none => cases lopt <;> simp [stash_pop_restore_file]
  | some B =>
    by_cases h1 : lopt.getD [] = B <;> by_cases h2 : S = B <;>
      by_cases h3 : lopt.getD [] = S <;>
        simp [stash_pop_restore_file, h1, h2, h3]

end Oxen
